import Mathlib

/-!
Shallow embedding of the document retrieval-and-ranking subsystem of the
h2obot repository (backend-ts/src/retrievers/officialSources.ts, first file
version: the one defining the relevance filter and the inner score function
wired into fetchAuthoritative).

Modelling conventions:
* All TypeScript string helpers are embedded as executable functions over
  `String` / `List Char`.  JavaScript regular expressions used by the source
  are embedded as deterministic matchers (they contain no backtracking
  ambiguity: every `\s*` is followed by a non-whitespace literal).
* External library calls (the WHATWG URL parser, chrono-node date parsing,
  `new Date`, cheerio markup queries, pdfjs page extraction, the network
  fetch and the Tavily search API) are modelled as oracle inputs: structure
  fields of `Env`, or structured views (`HtmlDoc`, `PdfDoc`) of the fetched
  bytes.  Every code path of the repository itself is embedded faithfully.
* TypeScript exceptions that the source catches are modelled with `Option`:
  `none` is the caught-and-dropped failure.  The embedding is total, which
  is exactly the propagation contract of the source (per-URL failures are
  converted to absence and never escape).
* JavaScript number arithmetic on millisecond timestamps is modelled over
  `Int`; the two age comparisons `age/864e5 < 60` and `age/864e5 < 365`
  are embedded as the equivalent integer comparisons against
  60*86400000 and 365*86400000 (the divisor is a positive constant).
-/

namespace H2obot

/-- Whitespace as matched by the JavaScript `\s` class and `trim`
(restricted to the ASCII whitespace characters). -/
def jsWs (c : Char) : Bool :=
  c = ' ' || c = '\t' || c = '\n' || c = '\r' || c = Char.ofNat 11 || c = Char.ofNat 12

/-- Does the character list start with the given pattern list? -/
def beginsWith : List Char → List Char → Bool
  | _, [] => true
  | [], _ :: _ => false
  | c :: cs, p :: ps => c = p && beginsWith cs ps

/-- Does the character list end with the given pattern list?
Embeds JavaScript `String.prototype.endsWith`. -/
def finishesWith (l pat : List Char) : Bool :=
  beginsWith l.reverse pat.reverse

/-- Does `pat` occur contiguously inside `hay`?
Embeds JavaScript `String.prototype.includes`. -/
def containsChars : List Char → List Char → Bool
  | [], pat => pat.isEmpty
  | c :: t, pat => beginsWith (c :: t) pat || containsChars t pat

/-- `hay.includes(pat)` on strings. -/
def containsStr (hay pat : String) : Bool :=
  containsChars hay.data pat.data

/-- `s.slice(0, n)` (ASCII model: code units = characters). -/
def takeStr (n : Nat) (s : String) : String :=
  ⟨s.data.take n⟩

/-- ASCII lower-casing, embedding `String.prototype.toLowerCase` for the
ASCII strings this program manipulates. -/
def lowerStr (s : String) : String :=
  ⟨s.data.map Char.toLower⟩

/-- Trim leading and trailing whitespace, embedding `String.prototype.trim`. -/
def trimChars (l : List Char) : List Char :=
  ((l.dropWhile jsWs).reverse.dropWhile jsWs).reverse

/-- `s.trim()` on strings. -/
def trimStr (s : String) : String :=
  ⟨trimChars s.data⟩

/-- `split` on a single separator character, embedding
`String.prototype.split` with a one-character separator. -/
def splitOnChar (sep : Char) : List Char → List (List Char)
  | [] => [[]]
  | c :: rest =>
    match splitOnChar sep rest with
    | [] => [[]]
    | w :: ws => if c = sep then [] :: w :: ws else (c :: w) :: ws

/-- `Array.prototype.join(sep)`. -/
def joinSep (sep : String) : List String → String
  | [] => ""
  | [x] => x
  | x :: y :: rest => x ++ sep ++ joinSep sep (y :: rest)

/-- One pass collapsing every whitespace run to a single space; the flag
records whether the previous character was whitespace.  Embeds the
`replace(/\s+/g, ' ')` step of `cleanText`. -/
def collapseWsGo (ws : Bool) : List Char → List Char
  | [] => []
  | c :: rest =>
    if jsWs c then
      if ws then collapseWsGo true rest else ' ' :: collapseWsGo true rest
    else c :: collapseWsGo false rest

/-- `cleanText` from the source: `t.replace(/\s+/g, ' ').trim()`. -/
def cleanText (t : String) : String :=
  ⟨trimChars (collapseWsGo false t.data)⟩

/-- Set-semantics deduplication keeping first occurrences, embedding the
iteration order of a JavaScript `Set`. -/
def dedupGo (seen : List String) : List String → List String
  | [] => []
  | x :: rest => if seen.contains x then dedupGo seen rest else x :: dedupGo (x :: seen) rest

/-- Deduplicate a list keeping first occurrences. -/
def dedup (l : List String) : List String :=
  dedupGo [] l

/-- `norm` from the source: `(s||'').toLowerCase().trim()`. -/
def norm (s : String) : String :=
  trimStr (lowerStr s)

/-- Lower-case alphanumeric test (the characters kept by the
`[^a-z0-9\s]` replacement after lower-casing). -/
def isAlnumLower (c : Char) : Bool :=
  ('a' ≤ c && c ≤ 'z') || ('0' ≤ c && c ≤ '9')

/-- `tokens` from the source:
`norm(s).replace(/[^a-z0-9\s]/g,' ').split(/\s+/).filter(Boolean)`.
Replacing every non-alphanumeric character (whitespace included) by a
space and splitting on spaces is equivalent to the replace-then-split of
the source, because the split separator class contains every whitespace
character. -/
def tokens (s : String) : List String :=
  let cleaned := (norm s).data.map fun c => if isAlnumLower c then c else ' '
  ((splitOnChar ' ' cleaned).filter (fun w => !w.isEmpty)).map fun w => (⟨w⟩ : String)

/-- Remainder of the character list after the first occurrence of `://`,
or `none` when there is none. -/
def afterSchemeGo : List Char → Option (List Char)
  | [] => none
  | c :: rest =>
    if beginsWith (c :: rest) [':', '/', '/'] then some (rest.drop 2)
    else afterSchemeGo rest

/-- Characters that terminate the authority component of a URL. -/
def hostEnd (c : Char) : Bool :=
  c = '/' || c = ':' || c = '?' || c = '#'

/-- Model of `new URL(href).hostname.toLowerCase()`, with `""` for the
`catch` branch of `host`.  Simplified WHATWG parsing adequate for the
http(s) URLs this program handles: the hostname is the lower-cased text
between the first `://` and the next `/`, `:`, `?` or `#`; an input with
no `://` is treated as a parse failure (`new URL` would throw). -/
def hostOf (href : String) : String :=
  match afterSchemeGo href.data with
  | none => ""
  | some rest => ⟨(rest.takeWhile fun c => !hostEnd c).map Char.toLower⟩

/-- `hostMatchesAllowed` from the source:
the hostname parses and equals an allowed domain or ends with `'.' + d`. -/
def hostMatchesAllowed (href : String) (allowed : List String) : Bool :=
  let h := hostOf href
  if h = "" then false
  else allowed.any fun d => h = d || finishesWith h.data ("." ++ d).data

/-- `strongLocationMatch` from the source: deduplicated location tokens,
hits counted over tokens of length at least 3 occurring in the lower-cased
`title + ' ' + text`, compared against
`min(2, max(1, floor(want.size / 2)))`. -/
def strongLocationMatch (docTitle : String) (docText : Option String) (loc : String) : Bool :=
  let want := dedup (tokens loc)
  let hay := lowerStr (docTitle ++ " " ++ docText.getD "")
  let hits := (want.filter fun t => decide (3 ≤ t.length) && containsStr hay t).length
  decide (Nat.min 2 (Nat.max 1 (want.length / 2)) ≤ hits)

/-- Document trust tier. -/
inductive Tier where
  | federal
  | state
  | local
  | other
deriving DecidableEq

/-- The `DOMAIN_TIERS` lookup table of the source. -/
def DOMAIN_TIERS (h : String) : Option Tier :=
  if h = "epa.gov" then some Tier.federal
  else if h = "cdc.gov" then some Tier.federal
  else if h = "who.int" then some Tier.federal
  else none

/-- `tierFor` from the source. -/
def tierFor (url : String) : Tier :=
  let h := hostOf url
  if finishesWith h.data ".gov".data then
    if containsStr h "epa.gov" || containsStr h "cdc.gov" then Tier.federal else Tier.state
  else if finishesWith h.data ".us".data then Tier.local
  else (DOMAIN_TIERS h).getD Tier.other

/-- The `RetrievedDoc` interface of the source. -/
structure RetrievedDoc where
  url : String
  title : String
  publisher : Option String := none
  publishedAt : Option String := none
  snippet : Option String := none
  text : Option String := none
  contentType : Option String := none
  score : Option Nat := none
  tier : Option Tier := none
deriving DecidableEq

/-- Structured view of what the cheerio markup queries of `parseHtml` and
`extractDateFromHtml` return on the fetched HTML: raw text of the queried
elements and the four date metadata attributes (`none` models a missing
attribute, `some ""` an empty one). -/
structure HtmlDoc where
  titleText : String := ""
  mainText : String := ""
  articleText : String := ""
  bodyRawText : String := ""
  metaDate : Option String := none
  metaLastModified : Option String := none
  metaArticleTime : Option String := none
  timeDatetime : Option String := none
  timeText : String := ""
deriving DecidableEq

/-- Structured view of what pdfjs exposes on a loaded PDF: per page, the
list of `str` fields of its text-content items. -/
structure PdfDoc where
  pages : List (List String)
deriving DecidableEq

/-- One result of the external search call. -/
structure SearchHit where
  url : String
  title : String

/-- Model of a settled HTTP response as `fetchBuffer` consumes it:
status flag, the `content-type` header (`""` when absent, as in the
source's `|| ''`), the `last-modified` header (`none` when absent or
empty, as in the source's `|| undefined`), and the two external parses of
the body bytes (`none` models the respective parser throwing). -/
structure HttpResponse where
  ok : Bool
  contentType : String
  lastModified : Option String
  htmlView : Option HtmlDoc
  pdfView : Option PdfDoc

/-- The ambient effect oracles of one retrieval run: configuration flags,
the network, the search provider, the chrono-node and `Date` parsers, and
the current time in milliseconds. -/
structure Env where
  strictLocal : Bool
  searchEnabled : Bool
  search : String → List String → List SearchHit
  fetch : String → Option HttpResponse
  chronoIso : String → Option String
  isoOf : String → Option String
  dateMs : String → Option Int
  now : Int

/-- `RETRIEVER_STRICT_LOCAL` from the source:
`process.env.RETRIEVER_STRICT_LOCAL !== '0'`; `none` models an unset
environment variable, so the default is `true`. -/
def retrieverStrictLocal (envVar : Option String) : Bool :=
  !(envVar == some "0")

/-- Upper-case ASCII letter test. -/
def isUpperCh (c : Char) : Bool :=
  'A' ≤ c && c ≤ 'Z'

/-- JavaScript regex word character (`\w`). -/
def isWordCh (c : Char) : Bool :=
  ('a' ≤ c && c ≤ 'z') || ('A' ≤ c && c ≤ 'Z') || ('0' ≤ c && c ≤ '9') || c = '_'

/-- A `\b` boundary holds before the next (word) character when there is
no previous character or the previous character is not a word character. -/
def boundaryBefore : Option Char → Bool
  | none => true
  | some p => !isWordCh p

/-- Leftmost match of `/\b([A-Z]{2})\b/`: scans positions left to right,
at each position requiring a boundary before, two upper-case letters, and
a boundary after. -/
def twoCapGo (prev : Option Char) : List Char → Option String
  | [] => none
  | a :: rest =>
    (if isUpperCh a then
       match rest with
       | b :: rest2 =>
         if isUpperCh b && boundaryBefore prev
            && (match rest2 with | [] => true | d :: _ => !isWordCh d)
         then some ⟨[a, b]⟩ else none
       | [] => none
     else none).orElse fun _ => twoCapGo (some a) rest

/-- `inferStateCode` from the source: first a bounded two-letter
upper-case token (the regex match is already upper case, so the
`toUpperCase` of the source is the identity on it), then the ordered
full-state-name dictionary scan over the normalized text. -/
def inferStateCode (location : String) : Option String :=
  match twoCapGo none location.data with
  | some st => some st
  | none =>
    let L := norm location
    if containsStr L "new york" then some "NY"
    else if containsStr L "michigan" then some "MI"
    else if containsStr L "mississippi" then some "MS"
    else if containsStr L "california" then some "CA"
    else if containsStr L "texas" then some "TX"
    else if containsStr L "florida" then some "FL"
    else none

/-- The `STATE_DOMAINS` table of the source. -/
def STATE_DOMAINS (st : String) : Option (List String) :=
  if st = "NY" then some ["health.ny.gov", "nyc.gov", "dep.nyc.gov"]
  else if st = "MI" then some ["michigan.gov", "cityofflint.com", "geneseecountymi.gov"]
  else if st = "MS" then some ["msdh.ms.gov", "jacksonms.gov"]
  else if st = "CA" then some ["waterboards.ca.gov", "cdph.ca.gov", "ocgov.com", "ocsd.org"]
  else if st = "TX" then some ["tceq.texas.gov", "austintexas.gov", "traviscountytx.gov", "austinwater.org"]
  else if st = "FL" then some ["floridahealth.gov", "floridadep.gov"]
  else if st = "PA" then some ["dep.pa.gov", "pennsylvania.gov", "alleghenycounty.us", "pittsburghpa.gov", "pgh2o.com"]
  else none

/-- Match of `(^|\b)nyc(\b|$)` at the head position: boundary (or string
start) before `nyc` and boundary (or string end) after it. -/
def nycAtHead (prev : Option Char) : List Char → Bool
  | 'n' :: 'y' :: 'c' :: rest2 =>
    boundaryBefore prev && (match rest2 with | [] => true | d :: _ => !isWordCh d)
  | _ => false

/-- Scan for `(^|\b)nyc(\b|$)` anywhere in the text. -/
def hasNycGo (prev : Option Char) : List Char → Bool
  | [] => false
  | c :: rest => nycAtHead prev (c :: rest) || hasNycGo (some c) rest

/-- The NYC regex of `deriveLocalDomains`:
`/(^|\b)nyc(\b|$)|new york city|manhattan|brooklyn|queens|bronx|staten island/`. -/
def nycRegexTest (L : String) : Bool :=
  hasNycGo none L.data || containsStr L "new york city" || containsStr L "manhattan"
    || containsStr L "brooklyn" || containsStr L "queens" || containsStr L "bronx"
    || containsStr L "staten island"

/-- `deriveLocalDomains` from the source: state-table domains plus the
special-case city/region additions, with `Set` insertion-order
deduplication. -/
def deriveLocalDomains (location : String) : List String :=
  let st := inferStateCode location
  let base := match st with
    | some s => (STATE_DOMAINS s).getD []
    | none => []
  let L := norm location
  let l1 := if nycRegexTest L then ["nyc.gov", "dep.nyc.gov"] else []
  let l2 := if containsStr L "flint" then ["cityofflint.com", "michigan.gov"] else []
  let l3 := if containsStr L "jackson" && (st == some "MS" || containsStr L "mississippi")
            then ["jacksonms.gov", "msdh.ms.gov"] else []
  let l4 := if containsStr L "travis county" || containsStr L "austin"
            then ["traviscountytx.gov", "austintexas.gov", "tceq.texas.gov", "austinwater.org"] else []
  let l5 := if containsStr L "pittsburgh" || containsStr L "allegheny"
            then ["pgh2o.com", "alleghenycounty.us", "dep.pa.gov", "pittsburghpa.gov"] else []
  dedup (base ++ l1 ++ l2 ++ l3 ++ l4 ++ l5)

/-- `curatedSeeds` from the source (first file version): the two fixed
federal seeds plus per-domain-group curated URLs gated on the derived
local domains. -/
def curatedSeeds (location : String) : List String :=
  let locals := deriveLocalDomains location
  let need : String → Bool := fun d => locals.any fun h => h = d || finishesWith h.data ("." ++ d).data
  ["https://www.epa.gov/ccr",
   "https://www.cdc.gov/healthywater/emergency/drinking/drinking-water-advisories.html"]
  ++ (if need "nyc.gov" || need "dep.nyc.gov"
      then ["https://www.nyc.gov/site/dep/water/drinking-water-quality-reports.page"] else [])
  ++ (if need "michigan.gov" then ["https://www.michigan.gov/egle"] else [])
  ++ (if need "jacksonms.gov" then ["https://www.jacksonms.gov/"] else [])
  ++ (if need "tceq.texas.gov" then ["https://www.tceq.texas.gov/drinkingwater"] else [])
  ++ (if need "austintexas.gov" || need "austinwater.org"
      then ["https://www.austintexas.gov/department/water"] else [])
  ++ (if need "pgh2o.com" then ["https://www.pgh2o.com/your-water/water-quality"] else [])
  ++ (if need "alleghenycounty.us" then ["https://www.alleghenycounty.us/Health-Department"] else [])
  ++ (if need "dep.pa.gov" then ["https://www.dep.pa.gov/Citizens/My-Water/Pages/default.aspx"] else [])

/-- `extractDateFromHtml` from the source: the first truthy entry of the
four metadata attributes (`find(Boolean)` skips missing and empty
values), else the visible text of the first `time` element; a falsy
candidate yields no date, otherwise chrono-node parses it and the result
is serialized to ISO. -/
def extractDateFromHtml (env : Env) (h : HtmlDoc) : Option String :=
  let metas := [h.metaDate, h.metaLastModified, h.metaArticleTime, h.timeDatetime]
  let meta := metas.findSome? fun o => o.bind fun s => if s = "" then none else some s
  let candidate := match meta with
    | some s => s
    | none => h.timeText
  if candidate = "" then none else env.chronoIso candidate

/-- `parseHtml` from the source. -/
def parseHtml (env : Env) (url : String) (h : HtmlDoc) : RetrievedDoc :=
  let title := cleanText (if h.titleText = "" then "Untitled" else h.titleText)
  let bodyText := cleanText (if h.mainText ≠ "" then h.mainText
    else if h.articleText ≠ "" then h.articleText else h.bodyRawText)
  let publishedAt := extractDateFromHtml env h
  let snippet := cleanText (takeStr 400 bodyText)
  { url := url, title := title, text := some bodyText, snippet := some snippet,
    publishedAt := publishedAt, contentType := some "text/html", tier := some (tierFor url) }

/-- Text of one PDF page: the item strings joined with a space. -/
def pdfPageTexts (pdf : PdfDoc) : List String :=
  pdf.pages.map (joinSep " ")

/-- The page-extraction loop of `parsePdf`: pushes each page text onto the
accumulated chunk list and stops as soon as
`textChunks.join(' ').length > 20000`. -/
def pdfChunksGo (acc : List String) : List String → List String
  | [] => acc
  | p :: rest =>
    if 20000 < (joinSep " " (acc ++ [p])).length then acc ++ [p]
    else pdfChunksGo (acc ++ [p]) rest

/-- The chunks `parsePdf` extracts: the loop runs over at most the first
`min(pdf.numPages, 12)` pages. -/
def pdfExtractedChunks (pdf : PdfDoc) : List String :=
  pdfChunksGo [] ((pdfPageTexts pdf).take 12)

/-- `textChunks.join('\n')` of the source. -/
def pdfRawText (pdf : PdfDoc) : String :=
  joinSep "\n" (pdfExtractedChunks pdf)

/-- `parsePdf` from the source (given the pdfjs view of the bytes). -/
def parsePdf (env : Env) (url : String) (pdf : PdfDoc) : RetrievedDoc :=
  let text := cleanText (pdfRawText pdf)
  let sliced := takeStr 120 ⟨(splitOnChar '\n' text.data).headD []⟩
  let title := if sliced = "" then "PDF" else sliced
  let publishedAt := env.chronoIso (takeStr 3000 text)
  let snippet := takeStr 400 text
  { url := url, title := title, text := some text, snippet := some snippet,
    publishedAt := publishedAt, contentType := some "application/pdf", tier := some (tierFor url) }

/-- JavaScript truthiness of the optional `publishedAt` string. -/
def falsyOptStr : Option String → Bool
  | none => true
  | some s => s = ""

/-- The `last-modified` backfill of `fetchAndParse`:
`if (!doc.publishedAt && lastMod) doc.publishedAt = new Date(lastMod).toISOString()`.
A `none` from `isoOf` models `toISOString` throwing on an unparsable
header, which the caller catch converts to `none`. -/
def backfillDate (env : Env) (lastMod : Option String) (d : RetrievedDoc) : Option RetrievedDoc :=
  if falsyOptStr d.publishedAt then
    match lastMod with
    | some lm =>
      match env.isoOf lm with
      | some iso => some { d with publishedAt := some iso }
      | none => none
    | none => some d
  else some d

/-- `fetchAndParse` from the source: network failure, a non-2xx status,
an unsupported content type and any parse exception all yield `none`. -/
def fetchAndParse (env : Env) (url : String) : Option RetrievedDoc :=
  match env.fetch url with
  | none => none
  | some r =>
    if !r.ok then none
    else if containsStr r.contentType "pdf" then
      match r.pdfView with
      | none => none
      | some pdf => backfillDate env r.lastModified (parsePdf env url pdf)
    else if containsStr r.contentType "html" || containsStr r.contentType "text" then
      match r.htmlView with
      | none => none
      | some hv => backfillDate env r.lastModified (parseHtml env url hv)
    else none

/-- Skip a run of whitespace, embedding a `\s*` regex segment. -/
def skipWs (l : List Char) : List Char :=
  l.dropWhile jsWs

/-- Match of `do\s*not\s*drink` at the head position.  The matcher is
deterministic because each `\s*` is followed by a non-whitespace
literal. -/
def doNotDrinkAtHead : List Char → Bool
  | 'd' :: 'o' :: rest =>
    match skipWs rest with
    | 'n' :: 'o' :: 't' :: rest2 =>
      match skipWs rest2 with
      | 'd' :: 'r' :: 'i' :: 'n' :: 'k' :: _ => true
      | _ => false
    | _ => false
  | _ => false

/-- Scan for `do\s*not\s*drink` anywhere. -/
def hasDoNotDrink : List Char → Bool
  | [] => false
  | c :: rest => doNotDrinkAtHead (c :: rest) || hasDoNotDrink rest

/-- The safety-keyword regex of the score function:
`/(boil|do\s*not\s*drink|advisory|notice)/i` (case folded by
lower-casing the haystack). -/
def safetyKeyword (s : String) : Bool :=
  let l := (lowerStr s).data
  containsChars l "boil".data || hasDoNotDrink l
    || containsChars l "advisory".data || containsChars l "notice".data

/-- The utility-jargon regex of the score function:
`/(pws(a)?|pgh2o|austin water|dep|deq|ddw)/i`; the optional group makes
`pws(a)?` equivalent to the substring `pws`. -/
def utilityJargon (s : String) : Bool :=
  let t := lowerStr s
  containsStr t "pws" || containsStr t "pgh2o" || containsStr t "austin water"
    || containsStr t "dep" || containsStr t "deq" || containsStr t "ddw"

/-- The recency boost of the score function.  `dm` is the `new
Date(..).getTime()` oracle (`none` models `NaN`, under which both age
comparisons are false); an empty `publishedAt` is falsy and skips the
block.  `ageDays < 60` and `ageDays < 365` are embedded as millisecond
comparisons. -/
def recencyBonus (now : Int) (dm : String → Option Int) (pub : Option String) : Nat :=
  match pub with
  | none => 0
  | some iso =>
    if iso = "" then 0
    else
      match dm iso with
      | none => 0
      | some t =>
        if now - t < 5184000000 then 2
        else if now - t < 31536000000 then 1
        else 0

/-- The inner `score` function of `fetchAuthoritative` (the scorer paired
with the relevance filter), with its sequential accumulation. -/
def scoreOf (now : Int) (dm : String → Option Int) (base localA : List String)
    (location : String) (d : RetrievedDoc) : Nat :=
  let s0 : Nat := 0
  let s1 := if hostMatchesAllowed d.url base then s0 + 3 else s0
  let s2 := if hostMatchesAllowed d.url localA then s1 + 4 else s1
  let s3 := if strongLocationMatch d.title d.text location then s2 + 2 else s2
  let s4 := if safetyKeyword ((d.text.getD "") ++ " " ++ d.title) then s3 + 2 else s3
  let s5 := if utilityJargon ((d.text.getD "") ++ " " ++ d.title) then s4 + 1 else s4
  s5 + recencyBonus now dm d.publishedAt

/-- The fixed federal allow-list of `fetchAuthoritative`. -/
def baseAllow : List String :=
  ["epa.gov", "cdc.gov"]

/-- The four templated queries of `fetchAuthoritative`. -/
def queriesFor (location question : String) : List String :=
  [trimStr (question ++ " " ++ location),
   location ++ " Consumer Confidence Report",
   location ++ " drinking water report",
   location ++ " boil water notice"]

/-- The allow-list of `fetchAuthoritative`:
`Array.from(new Set([...baseAllow, ...localAllow]))`. -/
def allowFor (location : String) : List String :=
  dedup (baseAllow ++ deriveLocalDomains location)

/-- URLs contributed by the optional external search: nothing when the
provider is not configured, else the results of every query in order. -/
def searchSeeds (env : Env) (queries allow : List String) : List String :=
  if env.searchEnabled then (queries.map fun q => (env.search q allow).map SearchHit.url).flatten
  else []

/-- The seed set of `fetchAuthoritative`: curated seeds then search
results, with `Set` insertion-order deduplication. -/
def seedsFor (env : Env) (location question : String) : List String :=
  dedup (curatedSeeds location ++ searchSeeds env (queriesFor location question) (allowFor location))

/-- The fetch-and-parse fan-out of `fetchAuthoritative`: successes are
collected in seed order, failures contribute nothing. -/
def rawDocsFor (env : Env) (location question : String) : List RetrievedDoc :=
  (seedsFor env location question).filterMap (fetchAndParse env)

/-- The relevance filter of `fetchAuthoritative`:
`okHost || (!RETRIEVER_STRICT_LOCAL && okLoc)` in one `Array.filter`
pass. -/
def relevanceFilter (strict : Bool) (allow : List String) (location : String)
    (docs : List RetrievedDoc) : List RetrievedDoc :=
  docs.filter fun d =>
    hostMatchesAllowed d.url allow || (!strict && strongLocationMatch d.title d.text location)

/-- The filtered document list of one `fetchAuthoritative` run. -/
def filteredFor (env : Env) (location question : String) : List RetrievedDoc :=
  relevanceFilter env.strictLocal (allowFor location) location (rawDocsFor env location question)

/-- `filtered.forEach(d => d.score = score(d))`. -/
def scoredFor (env : Env) (location question : String) : List RetrievedDoc :=
  (filteredFor env location question).map fun d =>
    { d with score := some (scoreOf env.now env.dateMs baseAllow (deriveLocalDomains location) location d) }

/-- The sort key `(d.score || 0)`. -/
def scoreKey (d : RetrievedDoc) : Nat :=
  d.score.getD 0

/-- Stable descending insertion: the inserted document goes before the
first strictly-lower-or-equal-scored element it does not lose to, i.e.
before the first element whose key is at most its own, which keeps
original order among equal scores. -/
def insertByScore (d : RetrievedDoc) : List RetrievedDoc → List RetrievedDoc
  | [] => [d]
  | x :: rest => if scoreKey x ≤ scoreKey d then d :: x :: rest else x :: insertByScore d rest

/-- Stable sort by score descending, embedding the (stable) JavaScript
`Array.sort` with comparator `(b.score||0) - (a.score||0)`. -/
def sortByScoreDesc : List RetrievedDoc → List RetrievedDoc
  | [] => []
  | d :: rest => insertByScore d (sortByScoreDesc rest)

/-- `fetchAuthoritative` from the source (first file version): resolve
the allow-list, build seeds, fetch and parse, filter, score, stable-sort
descending and keep the top 6. -/
def fetchAuthoritative (env : Env) (location question : String) : List RetrievedDoc :=
  (sortByScoreDesc (scoredFor env location question)).take 6

/-- The tier rule as the specification states it: a hostname ending in
`.gov` yields `federal` if it contains `epa.gov` or `cdc.gov` and `state`
otherwise; a hostname ending in `.us` yields `local`; any other hostname
is looked up in a small fixed table (`who.int` maps to `federal`)
defaulting to `other`. -/
def tierRuleSpec (h : String) : Tier :=
  if finishesWith h.data ".gov".data then
    if containsStr h "epa.gov" || containsStr h "cdc.gov" then Tier.federal else Tier.state
  else if finishesWith h.data ".us".data then Tier.local
  else if h = "who.int" then Tier.federal else Tier.other

/-- The score as the specification states it: the plain sum of the six
weighted indicator terms, with no normalization. -/
def scoreSpec (now : Int) (dm : String → Option Int) (base localA : List String)
    (location : String) (d : RetrievedDoc) : Nat :=
  (if hostMatchesAllowed d.url base then 3 else 0)
  + (if hostMatchesAllowed d.url localA then 4 else 0)
  + (if strongLocationMatch d.title d.text location then 2 else 0)
  + (if safetyKeyword ((d.text.getD "") ++ " " ++ d.title) then 2 else 0)
  + (if utilityJargon ((d.text.getD "") ++ " " ++ d.title) then 1 else 0)
  + recencyBonus now dm d.publishedAt

/-- The strong-location-match test exactly as the claim words it:
tokenize the location into alphanumeric tokens of length at least 3, and
require the number of those tokens appearing (case-insensitively) in
title + text to be at least `min(2, max(1, floor(token_count / 2)))`,
where `token_count` counts the tokens of that tokenization. -/
def strongLocationMatchClaim (docTitle : String) (docText : Option String) (loc : String) : Bool :=
  let toks := (tokens loc).filter fun t => decide (3 ≤ t.length)
  let hay := lowerStr (docTitle ++ " " ++ docText.getD "")
  let hits := toks.countP fun t => containsStr hay t
  decide (Nat.min 2 (Nat.max 1 (toks.length / 2)) ≤ hits)

/-- The amended strong-location-match statement: tokenize the location
into alphanumeric tokens of any length and deduplicate them; the hit
count is the number of distinct tokens of length at least 3 appearing
(case-insensitively) in title + text; the threshold
`min(2, max(1, floor(n / 2)))` uses the number `n` of distinct tokens of
any length, short tokens included. -/
def strongLocationMatchAmended (docTitle : String) (docText : Option String) (loc : String) : Bool :=
  let distinctToks := dedup (tokens loc)
  let hay := lowerStr (docTitle ++ " " ++ docText.getD "")
  let hits := distinctToks.countP fun t => decide (3 ≤ t.length) && containsStr hay t
  decide (Nat.min 2 (Nat.max 1 (distinctToks.length / 2)) ≤ hits)

/-- The PDF title rule as the specification states it: the first line of
the extracted text truncated to 120 characters, with fallback `"PDF"`
when that line is empty. -/
def pdfTitleSpec (text : String) : String :=
  let firstLn : String := ⟨text.data.takeWhile fun c => c ≠ '\n'⟩
  if firstLn = "" then "PDF" else takeStr 120 firstLn

/-- Witness environment on which every fetch fails. -/
def envNone : Env :=
  { strictLocal := true, searchEnabled := false, search := fun _ _ => [],
    fetch := fun _ => none, chronoIso := fun _ => none, isoOf := fun _ => none,
    dateMs := fun _ => none, now := 0 }

/-- A small HTML view used by witnesses. -/
def hdoc0 : HtmlDoc :=
  { titleText := "Austin Water Quality Report", bodyRawText := "Austin Texas water" }

/-- A small PDF view used by witnesses. -/
def pdf0 : PdfDoc :=
  { pages := [["Boil", "water"], ["notice"]] }

/-- Witness environment whose fetches return an HTML page. -/
def envHtml : Env :=
  { envNone with
    fetch := fun _ => some
      { ok := true, contentType := "text/html", lastModified := none,
        htmlView := some hdoc0, pdfView := none } }

/-- Witness environment whose fetches return a PDF. -/
def envPdfResp : Env :=
  { envNone with
    fetch := fun _ => some
      { ok := true, contentType := "application/pdf", lastModified := none,
        htmlView := none, pdfView := some pdf0 } }

/-- Counterexample environment: the content-type header contains both
`text` and `pdf`. -/
def envMixed : Env :=
  { envNone with
    fetch := fun _ => some
      { ok := true, contentType := "text/pdf", lastModified := none,
        htmlView := some hdoc0, pdfView := some pdf0 } }

/-- Concrete date-parse oracle used by the recency witness. -/
def dmW : String → Option Int :=
  fun s => if s = "older" then some 0 else if s = "newer" then some 86400000 else none

/-- A concrete allow-listed document used by the filter witness. -/
def docEpa : RetrievedDoc :=
  { url := "https://www.epa.gov/ccr", title := "CCR" }

lemma length_insertByScore (d : RetrievedDoc) (l : List RetrievedDoc) :
    (insertByScore d l).length = l.length + 1 := by
  induction l with
  | nil => rfl
  | cons x rest ih =>
    unfold insertByScore
    split
    · simp
    · simpa using ih

lemma length_sortByScoreDesc (l : List RetrievedDoc) :
    (sortByScoreDesc l).length = l.length := by
  induction l with
  | nil => rfl
  | cons d rest ih =>
    unfold sortByScoreDesc
    rw [length_insertByScore, ih]
    rfl

lemma mem_insertByScore {x d : RetrievedDoc} {l : List RetrievedDoc} :
    x ∈ insertByScore d l ↔ x = d ∨ x ∈ l := by
  induction l with
  | nil => simp [insertByScore]
  | cons y rest ih =>
    unfold insertByScore
    split
    · simp [or_comm, or_left_comm]
    · simp only [List.mem_cons, ih]
      tauto

lemma mem_sortByScoreDesc {x : RetrievedDoc} {l : List RetrievedDoc} :
    x ∈ sortByScoreDesc l ↔ x ∈ l := by
  induction l with
  | nil => simp [sortByScoreDesc]
  | cons d rest ih =>
    unfold sortByScoreDesc
    rw [mem_insertByScore, ih]
    simp

lemma joinSep_cons_cons (sep x y : String) (rest : List String) :
    joinSep sep (x :: y :: rest) = x ++ sep ++ joinSep sep (y :: rest) := rfl

lemma joinSep_append_singleton_length_le (p : String) (acc : List String) :
    (joinSep " " (acc ++ [p])).length ≤ (joinSep " " acc).length + 1 + p.length := by
  have hs : (" " : String).length = 1 := rfl
  induction acc with
  | nil =>
    show p.length ≤ ("" : String).length + 1 + p.length
    omega
  | cons x acc2 ih =>
    cases acc2 with
    | nil =>
      show (x ++ " " ++ p).length ≤ x.length + 1 + p.length
      simp only [String.length_append]
      omega
    | cons y rest =>
      show (joinSep " " (x :: y :: (rest ++ [p]))).length
        ≤ (joinSep " " (x :: y :: rest)).length + 1 + p.length
      rw [joinSep_cons_cons " " x y (rest ++ [p]), joinSep_cons_cons " " x y rest]
      simp only [List.cons_append] at ih
      simp only [String.length_append]
      omega

lemma joinSep_take_length_le (l : List String) :
    ∀ k, (joinSep " " (l.take k)).length ≤ (joinSep " " l).length := by
  have hs : (" " : String).length = 1 := rfl
  induction l with
  | nil => intro k; simp
  | cons x rest ih =>
    intro k
    cases k with
    | zero =>
      show ("" : String).length ≤ (joinSep " " (x :: rest)).length
      have h0 : ("" : String).length = 0 := rfl
      omega
    | succ k2 =>
      rw [List.take_succ_cons]
      cases rest with
      | nil => simp
      | cons y rest2 =>
        cases hk : (y :: rest2).take k2 with
        | nil =>
          show (joinSep " " [x]).length ≤ (joinSep " " (x :: y :: rest2)).length
          rw [joinSep_cons_cons " " x y rest2]
          show x.length ≤ (x ++ " " ++ joinSep " " (y :: rest2)).length
          simp only [String.length_append]
          omega
        | cons z zs =>
          rw [joinSep_cons_cons " " x z zs, joinSep_cons_cons " " x y rest2]
          have h2 := ih k2
          rw [hk] at h2
          simp only [String.length_append]
          omega

lemma joinSep_newline_length (l : List String) :
    (joinSep "\n" l).length = (joinSep " " l).length := by
  induction l with
  | nil => rfl
  | cons x rest ih =>
    cases rest with
    | nil => rfl
    | cons y rest2 =>
      rw [joinSep_cons_cons "\n" x y rest2, joinSep_cons_cons " " x y rest2]
      simp only [String.length_append] at ih ⊢
      have hn : ("\n" : String).length = 1 := rfl
      have hs : (" " : String).length = 1 := rfl
      omega

lemma pdfChunksGo_length_le (l : List String) :
    ∀ acc, (pdfChunksGo acc l).length ≤ acc.length + l.length := by
  induction l with
  | nil => intro acc; simp [pdfChunksGo]
  | cons p rest ih =>
    intro acc
    unfold pdfChunksGo
    split
    · simp only [List.length_append, List.length_cons, List.length_nil]
      omega
    · have h2 := ih (acc ++ [p])
      simp only [List.length_append, List.length_cons, List.length_nil] at h2 ⊢
      omega

lemma pdfChunksGo_join_length_le (L : Nat) (l : List String) :
    ∀ acc, (joinSep " " acc).length ≤ 20000 → (∀ p ∈ l, p.length ≤ L) →
      (joinSep " " (pdfChunksGo acc l)).length ≤ 20001 + L := by
  induction l with
  | nil =>
    intro acc hacc _
    unfold pdfChunksGo
    omega
  | cons p rest ih =>
    intro acc hacc hl
    unfold pdfChunksGo
    have hp : p.length ≤ L := hl p (by simp)
    have happ := joinSep_append_singleton_length_le p acc
    split
    · omega
    · exact ih (acc ++ [p]) (by omega) fun q hq => hl q (by simp [hq])

lemma pdfChunksGo_prefixes_le (l : List String) :
    ∀ acc, (joinSep " " acc).length ≤ 20000 →
      ∀ k, k < (pdfChunksGo acc l).length →
        (joinSep " " ((pdfChunksGo acc l).take k)).length ≤ 20000 := by
  induction l with
  | nil =>
    intro acc hacc k _
    unfold pdfChunksGo
    exact le_trans (joinSep_take_length_le acc k) hacc
  | cons p rest ih =>
    intro acc hacc k
    unfold pdfChunksGo
    split
    · intro hk
      simp only [List.length_append, List.length_cons, List.length_nil] at hk
      have hk2 : k ≤ acc.length := by omega
      rw [List.take_append_eq_append_take, Nat.sub_eq_zero_of_le hk2, List.take_zero,
        List.append_nil]
      exact le_trans (joinSep_take_length_le acc k) hacc
    · next hnot =>
      exact ih (acc ++ [p]) (by omega) k

lemma collapseWsGo_length_le (l : List Char) :
    ∀ ws, (collapseWsGo ws l).length ≤ l.length := by
  induction l with
  | nil => intro ws; simp [collapseWsGo]
  | cons c rest ih =>
    intro ws
    unfold collapseWsGo
    split
    · split
      · have := ih true; simp; omega
      · have := ih true; simp; omega
    · have := ih false; simp; omega

lemma dropWhile_length_le (p : Char → Bool) (l : List Char) :
    (l.dropWhile p).length ≤ l.length := by
  induction l with
  | nil => simp
  | cons c rest ih =>
    rw [List.dropWhile_cons]
    split
    · simp; omega
    · simp

lemma trimChars_length_le (l : List Char) : (trimChars l).length ≤ l.length := by
  unfold trimChars
  calc (((l.dropWhile jsWs).reverse.dropWhile jsWs).reverse).length
      = ((l.dropWhile jsWs).reverse.dropWhile jsWs).length := by rw [List.length_reverse]
    _ ≤ (l.dropWhile jsWs).reverse.length := dropWhile_length_le _ _
    _ = (l.dropWhile jsWs).length := by rw [List.length_reverse]
    _ ≤ l.length := dropWhile_length_le _ _

lemma cleanText_length_le (s : String) : (cleanText s).length ≤ s.length := by
  show (trimChars (collapseWsGo false s.data)).length ≤ s.data.length
  exact le_trans (trimChars_length_le _) (collapseWsGo_length_le _ _)

lemma backfillDate_some {env : Env} {lm : Option String} {d0 d : RetrievedDoc}
    (h : backfillDate env lm d0 = some d) :
    d.url = d0.url ∧ d.tier = d0.tier ∧ d.contentType = d0.contentType := by
  unfold backfillDate at h
  split at h
  · cases lm with
    | none => cases h; exact ⟨rfl, rfl, rfl⟩
    | some lmv =>
      simp only at h
      cases hiso : env.isoOf lmv with
      | none => rw [hiso] at h; cases h
      | some iso => rw [hiso] at h; cases h; exact ⟨rfl, rfl, rfl⟩
  · cases h; exact ⟨rfl, rfl, rfl⟩

lemma fetchAndParse_some {env : Env} {url : String} {d : RetrievedDoc}
    (h : fetchAndParse env url = some d) :
    d.url = url ∧ d.tier = some (tierFor url)
      ∧ (d.contentType = some "application/pdf" ∨ d.contentType = some "text/html") := by
  unfold fetchAndParse at h
  split at h
  · cases h
  · split at h
    · cases h
    · split at h
      · split at h
        · cases h
        · obtain ⟨h1, h2, h3⟩ := backfillDate_some h
          exact ⟨h1, h2, Or.inl h3⟩
      · split at h
        · split at h
          · cases h
          · obtain ⟨h1, h2, h3⟩ := backfillDate_some h
            exact ⟨h1, h2, Or.inr h3⟩
        · cases h

lemma mem_rawDocsFor {env : Env} {loc q : String} {d : RetrievedDoc}
    (h : d ∈ rawDocsFor env loc q) :
    ∃ u, u ∈ seedsFor env loc q ∧ fetchAndParse env u = some d := by
  unfold rawDocsFor at h
  rw [List.mem_filterMap] at h
  exact h

lemma mem_filteredFor {env : Env} {loc q : String} {d : RetrievedDoc}
    (h : d ∈ filteredFor env loc q) :
    d ∈ rawDocsFor env loc q
      ∧ (hostMatchesAllowed d.url (allowFor loc)
          || (!env.strictLocal && strongLocationMatch d.title d.text loc)) = true := by
  unfold filteredFor relevanceFilter at h
  rw [List.mem_filter] at h
  exact h

lemma mem_fetchAuthoritative {env : Env} {loc q : String} {d : RetrievedDoc}
    (h : d ∈ fetchAuthoritative env loc q) :
    ∃ d0, d0 ∈ filteredFor env loc q
      ∧ d = { d0 with
          score := some (scoreOf env.now env.dateMs baseAllow (deriveLocalDomains loc) loc d0) } := by
  unfold fetchAuthoritative at h
  have h2 : d ∈ sortByScoreDesc (scoredFor env loc q) :=
    (List.take_sublist 6 _).subset h
  rw [mem_sortByScoreDesc] at h2
  unfold scoredFor at h2
  rw [List.mem_map] at h2
  obtain ⟨d0, hd0, heq⟩ := h2
  exact ⟨d0, hd0, heq.symm⟩

lemma recencyBonus_le_two (now : Int) (dm : String → Option Int) (pub : Option String) :
    recencyBonus now dm pub ≤ 2 := by
  unfold recencyBonus
  split
  · omega
  · split
    · omega
    · split
      · omega
      · split
        · omega
        · split <;> omega

lemma recencyBonus_mono {now : Int} {dm : String → Option Int} {s1 s2 : String} {t1 t2 : Int}
    (h1 : dm s1 = some t1) (h2 : dm s2 = some t2) (hs1 : s1 ≠ "") (hs2 : s2 ≠ "")
    (hle : t1 ≤ t2) :
    recencyBonus now dm (some s1) ≤ recencyBonus now dm (some s2) := by
  have e : ∀ (s : String) (t : Int), dm s = some t → s ≠ "" →
      recencyBonus now dm (some s)
        = if now - t < 5184000000 then 2 else if now - t < 31536000000 then 1 else 0 := by
    intro s t hdm hs
    show (if s = "" then 0
      else match dm s with
        | none => 0
        | some t2 => if now - t2 < 5184000000 then 2 else if now - t2 < 31536000000 then 1 else 0)
      = if now - t < 5184000000 then 2 else if now - t < 31536000000 then 1 else 0
    rw [if_neg hs, hdm]
  rw [e s1 t1 h1 hs1, e s2 t2 h2 hs2]
  split_ifs <;> omega

lemma splitOnChar_ne_nil (sep : Char) (l : List Char) : splitOnChar sep l ≠ [] := by
  cases l with
  | nil => simp [splitOnChar]
  | cons c rest =>
    show (match splitOnChar sep rest with
      | [] => [[]]
      | w :: ws => if c = sep then [] :: w :: ws else (c :: w) :: ws) ≠ []
    cases splitOnChar sep rest with
    | nil => simp
    | cons w ws => by_cases hc : c = sep <;> simp [hc]

lemma splitOnChar_headD (sep : Char) (l : List Char) :
    (splitOnChar sep l).headD [] = l.takeWhile fun c => c ≠ sep := by
  induction l with
  | nil => rfl
  | cons c rest ih =>
    show ((match splitOnChar sep rest with
      | [] => [[]]
      | w :: ws => if c = sep then [] :: w :: ws else (c :: w) :: ws).headD [])
      = (c :: rest).takeWhile fun x => x ≠ sep
    cases h : splitOnChar sep rest with
    | nil => exact absurd h (splitOnChar_ne_nil sep rest)
    | cons w ws =>
      rw [h] at ih
      by_cases hc : c = sep
      · simp [hc, List.takeWhile_cons]
      · simp only [List.headD_cons] at ih
        simp [hc, List.takeWhile_cons, ih]

/-- Claim C1: for every location string and question string, the list
returned by `fetchAuthoritative` has length at most 6; fewer than 6
survivors is valid and simply returns all of them (the whole sorted
survivor list); and if the seed set is empty or every fetch fails the
result is the empty list. -/
theorem claim_c1_cap :
    (∀ (env : Env) (location question : String),
      (fetchAuthoritative env location question).length ≤ 6)
    ∧ (∀ (env : Env) (location question : String),
        (filteredFor env location question).length ≤ 6 →
          fetchAuthoritative env location question
            = sortByScoreDesc (scoredFor env location question))
    ∧ (∀ (env : Env) (location question : String),
        (seedsFor env location question = []
          ∨ ∀ u ∈ seedsFor env location question, fetchAndParse env u = none) →
          fetchAuthoritative env location question = []) := by
  refine ⟨?_, ?_, ?_⟩
  · intro env location question
    unfold fetchAuthoritative
    rw [List.length_take]
    omega
  · intro env location question hle
    unfold fetchAuthoritative
    apply List.take_of_length_le
    rw [length_sortByScoreDesc]
    unfold scoredFor
    rw [List.length_map]
    exact hle
  · intro env location question hfail
    have hraw : rawDocsFor env location question = [] := by
      unfold rawDocsFor
      rcases hfail with hnil | hall
      · rw [hnil]; rfl
      · rw [List.filterMap_eq_nil_iff]
        exact hall
    unfold fetchAuthoritative scoredFor filteredFor relevanceFilter
    rw [hraw]
    rfl

/-- Witness for C1: on an environment where every fetch fails, the
façade returns the empty list. -/
theorem claim_c1_cap_witness :
    fetchAuthoritative envNone "Nowhere" "is the water safe" = [] :=
  claim_c1_cap.2.2 envNone "Nowhere" "is the water safe" (Or.inr fun _ _ => rfl)

/-- Claim C2: strict-local mode is the default; the relevance filter is a
single order-preserving pass; under strict mode every survivor has an
allow-listed host; in general every survivor passes the allow-list host
test or the strong-location-match test; and under strict mode every
document of the final façade output has an allow-listed host. -/
theorem claim_c2_filter_soundness :
    retrieverStrictLocal none = true
    ∧ (∀ (strict : Bool) (allow : List String) (loc : String) (docs : List RetrievedDoc),
        List.Sublist (relevanceFilter strict allow loc docs) docs)
    ∧ (∀ (allow : List String) (loc : String) (docs : List RetrievedDoc) (d : RetrievedDoc),
        d ∈ relevanceFilter true allow loc docs → hostMatchesAllowed d.url allow = true)
    ∧ (∀ (strict : Bool) (allow : List String) (loc : String) (docs : List RetrievedDoc)
        (d : RetrievedDoc), d ∈ relevanceFilter strict allow loc docs →
          hostMatchesAllowed d.url allow = true
            ∨ strongLocationMatch d.title d.text loc = true)
    ∧ (∀ (env : Env) (loc q : String) (d : RetrievedDoc), env.strictLocal = true →
        d ∈ fetchAuthoritative env loc q → hostMatchesAllowed d.url (allowFor loc) = true)
    ∧ (∀ (href : String) (allow : List String),
        hostMatchesAllowed href allow = true ↔
          hostOf href ≠ "" ∧ ∃ dom ∈ allow, hostOf href = dom
            ∨ finishesWith (hostOf href).data ("." ++ dom).data = true) := by
  refine ⟨rfl, ?_, ?_, ?_, ?_, ?_⟩
  · intro strict allow loc docs
    exact List.filter_sublist docs
  · intro allow loc docs d hd
    unfold relevanceFilter at hd
    rw [List.mem_filter] at hd
    simpa using hd.2
  · intro strict allow loc docs d hd
    unfold relevanceFilter at hd
    rw [List.mem_filter] at hd
    rcases (Bool.or_eq_true _ _).mp hd.2 with hh | hs
    · exact Or.inl hh
    · exact Or.inr ((Bool.and_eq_true _ _).mp hs).2
  · intro env loc q d hstrict hd
    obtain ⟨d0, hd0, rfl⟩ := mem_fetchAuthoritative hd
    have h2 := (mem_filteredFor hd0).2
    rw [hstrict] at h2
    show hostMatchesAllowed d0.url (allowFor loc) = true
    simpa using h2
  · intro href allow
    simp only [hostMatchesAllowed]
    by_cases hh : hostOf href = ""
    · simp [hh]
    · simp only [if_neg hh, List.any_eq_true, Bool.or_eq_true, decide_eq_true_eq]
      constructor
      · rintro ⟨dom, hdom, hor⟩
        exact ⟨hh, dom, hdom, hor⟩
      · rintro ⟨-, dom, hdom, hor⟩
        exact ⟨dom, hdom, hor⟩

/-- Witness for C2: a document hosted on `www.epa.gov` survives the
strict filter, and its host is allow-listed. -/
theorem claim_c2_filter_soundness_witness :
    hostMatchesAllowed docEpa.url ["epa.gov"] = true :=
  claim_c2_filter_soundness.2.2.1 ["epa.gov"] "Nowhere" [docEpa] docEpa (by decide)

lemma scoreOf_publishedAt (now : Int) (dm : String → Option Int) (base localA : List String)
    (location : String) (d : RetrievedDoc) (p : Option String) :
    scoreOf now dm base localA location { d with publishedAt := p }
      = scoreOf now dm base localA location { d with publishedAt := none }
        + recencyBonus now dm p := by
  simp only [scoreOf]
  dsimp only
  have h0 : recencyBonus now dm none = 0 := rfl
  rw [h0]
  omega

/-- Claim C3: the Scorer score equals the plain sum of the six weighted
terms (+3 base-allow host, +4 local-allow host, +2 strong location match,
+2 safety keyword, +1 utility jargon, recency 2/1/0), with no
normalization. -/
theorem claim_c3_score_weights :
    ∀ (now : Int) (dm : String → Option Int) (base localA : List String)
      (location : String) (d : RetrievedDoc),
      scoreOf now dm base localA location d = scoreSpec now dm base localA location d := by
  intro now dm base localA location d
  simp only [scoreOf, scoreSpec]
  generalize recencyBonus now dm d.publishedAt = r
  split_ifs <;> omega

/-- Claim C4: the tier follows the stated host rule, is assigned at parse
time by both parsers, holds of every document `fetchAndParse` yields, and
is never recomputed downstream: every document of the final façade output
still carries exactly the tier of its hostname. -/
theorem claim_c4_tier_rule :
    (∀ url : String, tierFor url = tierRuleSpec (hostOf url))
    ∧ (∀ (env : Env) (url : String) (h : HtmlDoc),
        (parseHtml env url h).tier = some (tierFor url))
    ∧ (∀ (env : Env) (url : String) (p : PdfDoc),
        (parsePdf env url p).tier = some (tierFor url))
    ∧ (∀ (env : Env) (url : String) (d : RetrievedDoc),
        fetchAndParse env url = some d → d.tier = some (tierFor url))
    ∧ (∀ (env : Env) (loc q : String) (d : RetrievedDoc),
        d ∈ fetchAuthoritative env loc q → d.tier = some (tierFor d.url)) := by
  refine ⟨?_, ?_, ?_, ?_, ?_⟩
  · intro url
    simp only [tierFor, tierRuleSpec]
    generalize hostOf url = h
    by_cases hgov : finishesWith h.data ".gov".data = true
    · simp [hgov]
    · by_cases hus : finishesWith h.data ".us".data = true
      · simp [hgov, hus]
      · have he : h ≠ "epa.gov" := fun hh => by rw [hh] at hgov; exact hgov (by decide)
        have hc : h ≠ "cdc.gov" := fun hh => by rw [hh] at hgov; exact hgov (by decide)
        by_cases hw : h = "who.int"
        · simp [hgov, hus, DOMAIN_TIERS, he, hc, hw]
        · simp [hgov, hus, DOMAIN_TIERS, he, hc, hw]
  · intro env url h
    rfl
  · intro env url p
    rfl
  · intro env url d hd
    exact (fetchAndParse_some hd).2.1
  · intro env loc q d hd
    obtain ⟨d0, hd0, rfl⟩ := mem_fetchAuthoritative hd
    obtain ⟨u, hu, hfp⟩ := mem_rawDocsFor (mem_filteredFor hd0).1
    obtain ⟨hurl, htier, _⟩ := fetchAndParse_some hfp
    show d0.tier = some (tierFor d0.url)
    rw [hurl, htier]

/-- Witness for C4: an HTML document fetched from the EPA seed URL gets
tier `federal`, as the hostname rule dictates. -/
theorem claim_c4_tier_rule_witness :
    (parseHtml envHtml "https://www.epa.gov/ccr" hdoc0).tier
      = some (tierFor "https://www.epa.gov/ccr")
    ∧ tierFor "https://www.epa.gov/ccr" = Tier.federal :=
  ⟨claim_c4_tier_rule.2.2.2.1 envHtml "https://www.epa.gov/ccr"
      (parseHtml envHtml "https://www.epa.gov/ccr" hdoc0) rfl,
   by decide⟩

/-- Claim C5 counterexample: on location `"aa bb cc york"`, title
`"york"` and empty text, the code predicate is false (the threshold is
computed from all four distinct tokens, short ones included, giving 2,
while only one token of length at least 3 hits), but the formula of the
claim (tokens of length at least 3 only, so threshold 1) is true. -/
theorem claim_c5_strong_match_counterexample :
    strongLocationMatch "york" (some "") "aa bb cc york" = false
    ∧ strongLocationMatchClaim "york" (some "") "aa bb cc york" = true := by
  exact ⟨by decide, by decide⟩

/-- Claim C5 (amended): the predicate holds iff, deduplicating the
alphanumeric tokens of the location (of any length), the number of
distinct tokens of length at least 3 occurring in lower-cased
title + text reaches `min(2, max(1, floor(n / 2)))` where `n` counts all
distinct tokens, short ones included. -/
theorem claim_c5_strong_match_amended :
    ∀ (docTitle : String) (docText : Option String) (loc : String),
      strongLocationMatch docTitle docText loc
        = strongLocationMatchAmended docTitle docText loc := by
  intro docTitle docText loc
  simp only [strongLocationMatch, strongLocationMatchAmended]
  rw [List.countP_eq_length_filter]

/-- Claim C6: two documents identical except for `publishedAt`, both
carrying valid (parsable, nonempty) dates, score monotonically: the more
recent date never scores lower. -/
theorem claim_c6_recency_monotone :
    ∀ (now : Int) (dm : String → Option Int) (base localA : List String)
      (location : String) (d : RetrievedDoc) (s1 s2 : String) (t1 t2 : Int),
      dm s1 = some t1 → dm s2 = some t2 → s1 ≠ "" → s2 ≠ "" → t1 ≤ t2 →
      scoreOf now dm base localA location { d with publishedAt := some s1 }
        ≤ scoreOf now dm base localA location { d with publishedAt := some s2 } := by
  intro now dm base localA location d s1 s2 t1 t2 h1 h2 hs1 hs2 hle
  rw [scoreOf_publishedAt now dm base localA location d (some s1),
    scoreOf_publishedAt now dm base localA location d (some s2)]
  have hmono := @recencyBonus_mono now dm s1 s2 t1 t2 h1 h2 hs1 hs2 hle
  omega

/-- Witness for C6: with a one-day-newer timestamp, the newer document
scores at least as high. -/
theorem claim_c6_recency_monotone_witness :
    dmW "older" = some 0 ∧ dmW "newer" = some 86400000
    ∧ scoreOf 86400000 dmW [] [] "" { docEpa with publishedAt := some "older" }
        ≤ scoreOf 86400000 dmW [] [] "" { docEpa with publishedAt := some "newer" } :=
  ⟨rfl, rfl,
    claim_c6_recency_monotone 86400000 dmW [] [] "" docEpa "older" "newer" 0 86400000
      rfl rfl (by decide) (by decide) (by decide)⟩

/-- Claim C7: PDF extraction uses at most the first
`min(page count, 12)` pages; the cap applies mid-extraction (before each
further page is consumed the accumulated joined text is still at most
20000 characters); and when every page text has length at most `L`, the
final whitespace-collapsed `text` has length at most `20001 + L`, i.e.
it is capped near 20000 characters. -/
theorem claim_c7_pdf_caps :
    ∀ (env : Env) (url : String) (pdf : PdfDoc) (L : Nat),
      (pdfExtractedChunks pdf).length ≤ min pdf.pages.length 12
      ∧ (∀ k, k < (pdfExtractedChunks pdf).length →
          (joinSep " " ((pdfExtractedChunks pdf).take k)).length ≤ 20000)
      ∧ ((∀ pg ∈ pdfPageTexts pdf, pg.length ≤ L) →
          ((parsePdf env url pdf).text.getD "").length ≤ 20001 + L) := by
  intro env url pdf L
  refine ⟨?_, ?_, ?_⟩
  · unfold pdfExtractedChunks
    have h1 := pdfChunksGo_length_le ((pdfPageTexts pdf).take 12) []
    simp only [List.length_nil, Nat.zero_add] at h1
    have h2 : ((pdfPageTexts pdf).take 12).length = min 12 (pdfPageTexts pdf).length :=
      List.length_take 12 (pdfPageTexts pdf)
    have h3 : (pdfPageTexts pdf).length = pdf.pages.length := List.length_map _ _
    omega
  · unfold pdfExtractedChunks
    intro k hk
    exact pdfChunksGo_prefixes_le ((pdfPageTexts pdf).take 12) [] (by decide) k hk
  · intro hL
    have hmem : ∀ p ∈ (pdfPageTexts pdf).take 12, p.length ≤ L :=
      fun p hp => hL p ((List.take_sublist 12 (pdfPageTexts pdf)).subset hp)
    have hbound := pdfChunksGo_join_length_le L ((pdfPageTexts pdf).take 12) [] (by decide) hmem
    have htext : (parsePdf env url pdf).text.getD "" = cleanText (pdfRawText pdf) := rfl
    rw [htext]
    have h4 := cleanText_length_le (pdfRawText pdf)
    have h5 : (pdfRawText pdf).length = (joinSep " " (pdfExtractedChunks pdf)).length :=
      joinSep_newline_length (pdfExtractedChunks pdf)
    unfold pdfExtractedChunks at h5
    omega

/-- Witness for C7: a concrete two-page PDF with page texts of length at
most 5 yields text of length at most 20006. -/
theorem claim_c7_pdf_caps_witness :
    ((parsePdf envNone "https://x.example/r.pdf" pdf0).text.getD "").length ≤ 20001 + 10 :=
  (claim_c7_pdf_caps envNone "https://x.example/r.pdf" pdf0 10).2.2 (by decide)

/-- Claim C8: `fetchAndParse` yields nothing on every failure mode — a
network exception, a non-2xx response, a content-type header containing
neither `pdf` nor `html` nor `text`, and an exception in either body
parser — and a per-URL success is always collected into the batch of one
façade run no matter what the other URLs do.  The embedding is a total
function into `Option`, so no exception can propagate. -/
theorem claim_c8_failure_modes :
    (∀ (env : Env) (url : String), env.fetch url = none → fetchAndParse env url = none)
    ∧ (∀ (env : Env) (url : String) (r : HttpResponse),
        env.fetch url = some r → r.ok = false → fetchAndParse env url = none)
    ∧ (∀ (env : Env) (url : String) (r : HttpResponse),
        env.fetch url = some r → containsStr r.contentType "pdf" = false →
        containsStr r.contentType "html" = false → containsStr r.contentType "text" = false →
        fetchAndParse env url = none)
    ∧ (∀ (env : Env) (url : String) (r : HttpResponse),
        env.fetch url = some r → containsStr r.contentType "pdf" = true →
        r.pdfView = none → fetchAndParse env url = none)
    ∧ (∀ (env : Env) (url : String) (r : HttpResponse),
        env.fetch url = some r → containsStr r.contentType "pdf" = false →
        r.htmlView = none → fetchAndParse env url = none)
    ∧ (∀ (env : Env) (loc q u : String) (d : RetrievedDoc),
        u ∈ seedsFor env loc q → fetchAndParse env u = some d →
        d ∈ rawDocsFor env loc q) := by
  refine ⟨?_, ?_, ?_, ?_, ?_, ?_⟩
  · intro env url h
    unfold fetchAndParse
    rw [h]
  · intro env url r hf hok
    unfold fetchAndParse
    rw [hf]
    simp [hok]
  · intro env url r hf h1 h2 h3
    unfold fetchAndParse
    rw [hf]
    cases hok : r.ok <;> simp [hok, h1, h2, h3]
  · intro env url r hf h1 hview
    unfold fetchAndParse
    rw [hf]
    cases hok : r.ok <;> simp [hok, h1, hview]
  · intro env url r hf h1 hview
    unfold fetchAndParse
    rw [hf]
    cases hok : r.ok <;> cases h2 : containsStr r.contentType "html" <;>
      cases h3 : containsStr r.contentType "text" <;> simp [hok, h1, h2, h3, hview]
  · intro env loc q u d hu hfp
    unfold rawDocsFor
    rw [List.mem_filterMap]
    exact ⟨u, hu, hfp⟩

/-- Witness for C8: on the all-failing environment, a URL yields
nothing. -/
theorem claim_c8_failure_modes_witness :
    fetchAndParse envNone "https://www.epa.gov/ccr" = none :=
  claim_c8_failure_modes.1 envNone "https://www.epa.gov/ccr" rfl

lemma mkStr_eq_empty_iff (l : List Char) : (⟨l⟩ : String) = "" ↔ l = [] := by
  constructor
  · intro h
    exact congrArg String.data h
  · intro h
    rw [h]

/-- Claim C9: the PDF title is derived from the whitespace-collapsed
extracted text as its first line truncated to 120 characters, with
fallback `"PDF"` when that line is empty. -/
theorem claim_c9_pdf_title :
    ∀ (env : Env) (url : String) (pdf : PdfDoc),
      (parsePdf env url pdf).text = some (cleanText (pdfRawText pdf))
      ∧ (parsePdf env url pdf).title = pdfTitleSpec (cleanText (pdfRawText pdf)) := by
  intro env url pdf
  refine ⟨rfl, ?_⟩
  show (if takeStr 120 ⟨(splitOnChar '\n' (cleanText (pdfRawText pdf)).data).headD []⟩ = ""
      then "PDF"
      else takeStr 120 ⟨(splitOnChar '\n' (cleanText (pdfRawText pdf)).data).headD []⟩)
    = pdfTitleSpec (cleanText (pdfRawText pdf))
  rw [splitOnChar_headD]
  unfold pdfTitleSpec
  generalize (cleanText (pdfRawText pdf)).data.takeWhile (fun c => c ≠ '\n') = fl
  have hiff : takeStr 120 (⟨fl⟩ : String) = "" ↔ (⟨fl⟩ : String) = "" := by
    show (⟨fl.take 120⟩ : String) = "" ↔ (⟨fl⟩ : String) = ""
    rw [mkStr_eq_empty_iff, mkStr_eq_empty_iff, List.take_eq_nil_iff]
    simp
  by_cases hf : (⟨fl⟩ : String) = ""
  · rw [if_pos (hiff.mpr hf), if_pos hf]
  · rw [if_neg (fun hh => hf (hiff.mp hh)), if_neg hf]

/-- Claim C10 counterexample: a response whose content-type header is
`"text/pdf"` contains `"text"`, yet the resulting document has
contentType `"application/pdf"`, not `"text/html"` — the `pdf` test is
checked first. -/
theorem claim_c10_contentType_counterexample :
    containsStr "text/pdf" "text" = true
    ∧ (fetchAndParse envMixed "https://x.example/a").bind RetrievedDoc.contentType
        = some "application/pdf"
    ∧ (fetchAndParse envMixed "https://x.example/a").bind RetrievedDoc.contentType
        ≠ some "text/html" := by
  exact ⟨by decide, by decide, by decide⟩

/-- Claim C10 (amended): every document `fetchAndParse` yields has
contentType exactly `"text/html"` or `"application/pdf"`; a header
containing `"pdf"` always yields `"application/pdf"`, and a header not
containing `"pdf"` (hence containing `"html"` or `"text"`, or no document
is produced) yields `"text/html"`. -/
theorem claim_c10_contentType :
    ∀ (env : Env) (url : String) (d : RetrievedDoc), fetchAndParse env url = some d →
      (d.contentType = some "text/html" ∨ d.contentType = some "application/pdf")
      ∧ ∀ r : HttpResponse, env.fetch url = some r →
          (containsStr r.contentType "pdf" = true → d.contentType = some "application/pdf")
          ∧ (containsStr r.contentType "pdf" = false → d.contentType = some "text/html") := by
  intro env url d h
  constructor
  · rcases (fetchAndParse_some h).2.2 with hp | hh
    · exact Or.inr hp
    · exact Or.inl hh
  · intro r hr
    unfold fetchAndParse at h
    rw [hr] at h
    have h2 : (if !r.ok then (none : Option RetrievedDoc)
        else if containsStr r.contentType "pdf" then
          match r.pdfView with
          | none => none
          | some pdf => backfillDate env r.lastModified (parsePdf env url pdf)
        else if containsStr r.contentType "html" || containsStr r.contentType "text" then
          match r.htmlView with
          | none => none
          | some hv => backfillDate env r.lastModified (parseHtml env url hv)
        else none) = some d := h
    cases hok : r.ok with
    | false =>
      rw [hok] at h2
      simp at h2
    | true =>
      rw [hok] at h2
      cases hpdf2 : containsStr r.contentType "pdf" with
      | true =>
        rw [hpdf2] at h2
        simp only [Bool.not_true, Bool.false_eq_true, if_false, if_true] at h2
        cases hv : r.pdfView with
        | none =>
          rw [hv] at h2
          simp at h2
        | some pdfv =>
          rw [hv] at h2
          exact ⟨fun _ => (backfillDate_some h2).2.2, fun hf => Bool.noConfusion hf⟩
      | false =>
        rw [hpdf2] at h2
        simp only [Bool.not_true, Bool.false_eq_true, if_false] at h2
        refine ⟨fun hp => Bool.noConfusion hp, fun _ => ?_⟩
        cases hht : (containsStr r.contentType "html" || containsStr r.contentType "text") with
          | false =>
            rw [hht] at h2
            simp at h2
          | true =>
            rw [hht] at h2
            simp only [if_true] at h2
            cases hv : r.htmlView with
            | none =>
              rw [hv] at h2
              simp at h2
            | some hview =>
              rw [hv] at h2
              exact (backfillDate_some h2).2.2

/-- Witness for C10 (amended): a plain PDF response yields contentType
`"application/pdf"`. -/
theorem claim_c10_contentType_witness :
    (parsePdf envPdfResp "https://x.example/r" pdf0).contentType = some "application/pdf" :=
  ((claim_c10_contentType envPdfResp "https://x.example/r"
      (parsePdf envPdfResp "https://x.example/r" pdf0) rfl).2
    { ok := true, contentType := "application/pdf", lastModified := none,
      htmlView := none, pdfView := some pdf0 } rfl).1 (by decide)

end H2obot
